import Mathlib

/-!
Verification of the `push_and_read` library (`src/lib.rs`): a growable,
append-only store (`VecOwner`/`VecChild`) and a unique-keyed store
(`HashMapOwner`/`HashMapChild`) that return references which stay valid
across later insertions, relying on the `StaticType` stability contract.

Embedding conventions:
* A raw pointer `*const T::Ref` is an address `Addr := Nat` into an explicit
  `Heap` of payload cells; `Box::new` is `Heap.alloc`, dereferencing a
  returned reference is `Heap.deref`.
* Panics (`assert_eq!`, `debug_assert_eq!`, `unwrap`, `expect`) are the
  `Except.error` branch of `Except String`.
* `cfg!(debug_assertions)` is an explicit build-mode flag `dbg : Bool`.
* Rust `&mut` state is threaded explicitly: each operation takes the owner
  state and returns the updated one.
-/

/-- A machine address (the value of a `*const` pointer). -/
abbrev Addr := Nat

/-- The heap of payload cells; a `Box` allocation appends a cell and the
address of a cell never changes afterwards. -/
structure Heap (V : Type) where
  cells : List V
deriving DecidableEq

/-- The empty heap. -/
def Heap.empty (V : Type) : Heap V := ⟨[]⟩

/-- `Box<V>`: a handle holding the heap address of its payload. Moving the
box moves only the address value, never the payload cell. -/
structure Boxed (V : Type) where
  addr : Addr
deriving DecidableEq

/-- `Box::new`: allocate a payload cell, returning the grown heap and the
box (which stores only the payload's address). -/
def Heap.alloc {V : Type} (h : Heap V) (x : V) : Heap V × Boxed V :=
  (⟨h.cells ++ [x]⟩, ⟨h.cells.length⟩)

/-- Dereference an address (reading through a returned `&T::Ref`). -/
def Heap.deref {V : Type} (h : Heap V) (a : Addr) : Option V :=
  h.cells.get? a

/-- The `StaticType` trait: the capability of computing the address of the
stored value's `Ref` view (`fn ref_ptr(&self) -> *const Self::Ref`). -/
structure StaticType (T : Type) where
  ref_ptr : T → Addr

/-- The `unsafe impl StaticType for Box<T>` instance: `ref_ptr` is the
address of the boxed payload (`&**self`). -/
def Boxed.staticType (V : Type) : StaticType (Boxed V) :=
  ⟨Boxed.addr⟩

/-- `VecOwner<T>(Vec<T>)`: exclusive owner of the sequential store. -/
structure VecOwner (T : Type) where
  data : List T
deriving DecidableEq

/-- `VecOwner::new()`. -/
def VecOwner.empty (T : Type) : VecOwner T := ⟨[]⟩

/-- `VecOwner::push`: record `v.ref_ptr()`, append `v`, and (in checked
builds) `debug_assert_eq!(self.0.last().unwrap().ref_ptr(), ptr)`; return
the recorded pointer. -/
def VecOwner.push {T : Type} (st : StaticType T) (dbg : Bool)
    (o : VecOwner T) (v : T) : Except String (VecOwner T × Addr) :=
  let ptr := st.ref_ptr v
  let d := o.data ++ [v]
  if dbg then
    match d.getLast? with
    | none => .error "called Option::unwrap on a None value"
    | some lastv =>
      if st.ref_ptr lastv = ptr then .ok (⟨d⟩, ptr)
      else .error "Trait promises we're not uphold"
  else .ok (⟨d⟩, ptr)

/-- `VecChild::push`: the child is a `&mut VecOwner`; it delegates to
`VecOwner::push` and casts the returned pointer to a reference (in this
embedding, returns the address, to be read via `Heap.deref`). -/
def VecChild.push {T : Type} (st : StaticType T) (dbg : Bool)
    (o : VecOwner T) (v : T) : Except String (VecOwner T × Addr) :=
  VecOwner.push st dbg o v

theorem getLast?_append_singleton {α : Type} (l : List α) (a : α) :
    (l ++ [a]).getLast? = some a := by
  simp

/-- `VecOwner::push` always succeeds and appends: the `last().unwrap()`
cannot fail (the vector is nonempty right after the push) and the debug
assertion compares `ref_ptr` of the value just appended with the pointer
computed before the push, which agree. -/
theorem VecOwner.push_eq {T : Type} (st : StaticType T) (dbg : Bool)
    (o : VecOwner T) (v : T) :
    VecOwner.push st dbg o v = .ok (⟨o.data ++ [v]⟩, st.ref_ptr v) := by
  cases dbg <;> simp [VecOwner.push, getLast?_append_singleton]

/-- The operations the `K: Hash + Eq + Clone` bound provides on keys. -/
structure KeyOps (K : Type) where
  beq : K → K → Bool
  hash : K → Nat
  clone : K → K

/-- Whether stored entry `p` is hit when looking up key `k` in a
`HashMap`: the stored key must hash like `k` and compare equal to `k`. -/
def entry_matches {K T : Type} (ko : KeyOps K) (k : K) (p : K × T) : Bool :=
  ko.hash p.1 == ko.hash k && ko.beq p.1 k

/-- First entry hit when looking up `k` (the map's internal lookup). -/
def map_find? {K T : Type} (ko : KeyOps K) (k : K) :
    List (K × T) → Option (K × T)
  | [] => none
  | p :: rest =>
    if entry_matches ko k p then some p else map_find? ko k rest

/-- `HashMap::contains_key`. -/
def contains_key {K T : Type} (ko : KeyOps K) (m : List (K × T)) (k : K) :
    Bool :=
  (map_find? ko k m).isSome

/-- `HashMap::get`. -/
def map_get {K T : Type} (ko : KeyOps K) (m : List (K × T)) (k : K) :
    Option T :=
  (map_find? ko k m).map Prod.snd

/-- `HashMap::insert`: replace the value of an existing matching entry
(keeping its stored key), or append a fresh entry. -/
def map_insert {K T : Type} (ko : KeyOps K) (m : List (K × T)) (k : K)
    (v : T) : List (K × T) :=
  if contains_key ko m k then
    m.map (fun p => if entry_matches ko k p then (p.1, v) else p)
  else m ++ [(k, v)]

/-- `HashMapOwner<K, T>(HashMap<K, T>)`: exclusive owner of the
associative store. -/
structure HashMapOwner (K T : Type) where
  entries : List (K × T)
deriving DecidableEq

/-- `HashMapOwner::new()`. -/
def HashMapOwner.empty (K T : Type) : HashMapOwner K T := ⟨[]⟩

/-- The store's element count (`HashMap::len`). -/
def HashMapOwner.count {K T : Type} (o : HashMapOwner K T) : Nat :=
  o.entries.length

/-- `HashMapOwner::try_insert`: return `None` if the key is present;
otherwise record `v.ref_ptr()` and insert. In checked builds insert a
clone of the key, re-derive the stored value by `get(&key).unwrap()` and
`assert_eq!(ptr, v.ref_ptr())`; in release builds insert the key
directly. Return `Some(ptr)`. -/
def HashMapOwner.try_insert {K T : Type} (ko : KeyOps K) (st : StaticType T)
    (dbg : Bool) (o : HashMapOwner K T) (k : K) (v : T) :
    Except String (HashMapOwner K T × Option Addr) :=
  if contains_key ko o.entries k then .ok (o, none)
  else
    let ptr := st.ref_ptr v
    if dbg then
      let m := map_insert ko o.entries (ko.clone k) v
      match map_get ko m k with
      | none => .error "called Option::unwrap on a None value"
      | some v2 =>
        if ptr = st.ref_ptr v2 then .ok (⟨m⟩, some ptr)
        else .error "Trait promises we're not uphold"
    else .ok (⟨map_insert ko o.entries k v⟩, some ptr)

/-- `HashMapChild::try_insert`: the child is a `&mut HashMapOwner`; it
delegates to `HashMapOwner::try_insert` and casts the pointer inside the
`Option` to a reference (here: the address, read via `Heap.deref`). -/
def HashMapChild.try_insert {K T : Type} (ko : KeyOps K) (st : StaticType T)
    (dbg : Bool) (o : HashMapOwner K T) (k : K) (v : T) :
    Except String (HashMapOwner K T × Option Addr) :=
  HashMapOwner.try_insert ko st dbg o k v

/-- `HashMapChild::insert`: `try_insert(key, v).expect("Key already
exists")` — panics when the key is already present. -/
def HashMapChild.insert {K T : Type} (ko : KeyOps K) (st : StaticType T)
    (dbg : Bool) (o : HashMapOwner K T) (k : K) (v : T) :
    Except String (HashMapOwner K T × Addr) :=
  match HashMapOwner.try_insert ko st dbg o k v with
  | .error e => .error e
  | .ok (o', some a) => .ok (o', a)
  | .ok (_, none) => .error "Key already exists"

/-- Well-behaved `Clone`/`Eq`/`Hash`: equality is symmetric and
transitive, and a clone is equal to, and hashes like, the original. -/
structure KeyOps.Lawful {K : Type} (ko : KeyOps K) : Prop where
  beq_symm : ∀ a b, ko.beq a b = true → ko.beq b a = true
  beq_trans : ∀ a b c, ko.beq a b = true → ko.beq b c = true →
    ko.beq a c = true
  clone_beq : ∀ k, ko.beq (ko.clone k) k = true
  hash_clone : ∀ k, ko.hash (ko.clone k) = ko.hash k

theorem KeyOps.Lawful.beq_congr_left {K : Type} {ko : KeyOps K}
    (hlaw : ko.Lawful) {a b : K} (hab : ko.beq a b = true) (q : K) :
    ko.beq a q = ko.beq b q := by
  cases hq : ko.beq b q with
  | true => exact hlaw.beq_trans a b q hab hq
  | false =>
    cases ha : ko.beq a q with
    | true =>
      exact absurd (hlaw.beq_trans b a q (hlaw.beq_symm a b hab) ha)
        (by simp [hq])
    | false => rfl

theorem KeyOps.Lawful.beq_congr_right {K : Type} {ko : KeyOps K}
    (hlaw : ko.Lawful) {a b : K} (hab : ko.beq a b = true) (s : K) :
    ko.beq s a = ko.beq s b := by
  cases hq : ko.beq s b with
  | true => exact hlaw.beq_trans s b a hq (hlaw.beq_symm a b hab)
  | false =>
    cases ha : ko.beq s a with
    | true => exact absurd (hlaw.beq_trans s a b ha hab) (by simp [hq])
    | false => rfl

/-- A stored entry keyed by a clone is hit by exactly the same lookups as
one keyed by the original. -/
theorem entry_matches_clone_key {K T : Type} {ko : KeyOps K}
    (hlaw : ko.Lawful) (q k : K) (v : T) :
    entry_matches ko q (ko.clone k, v) = entry_matches ko q (k, v) := by
  simp only [entry_matches, hlaw.hash_clone,
    hlaw.beq_congr_left (hlaw.clone_beq k) q]

/-- Looking up a clone of `k` hits exactly the entries a lookup of `k`
hits. -/
theorem entry_matches_clone_query {K T : Type} {ko : KeyOps K}
    (hlaw : ko.Lawful) (k : K) (p : K × T) :
    entry_matches ko (ko.clone k) p = entry_matches ko k p := by
  simp only [entry_matches, hlaw.hash_clone,
    hlaw.beq_congr_right (hlaw.clone_beq k) p.1]

theorem map_find?_append_some {K T : Type} (ko : KeyOps K) (k : K)
    {m m₂ : List (K × T)} {p : K × T} (h : map_find? ko k m = some p) :
    map_find? ko k (m ++ m₂) = some p := by
  induction m with
  | nil => simp [map_find?] at h
  | cons q rest ih =>
    rw [List.cons_append]
    by_cases hq : entry_matches ko k q = true
    · rw [map_find?, if_pos hq] at h
      rw [map_find?, if_pos hq]
      exact h
    · rw [map_find?, if_neg hq] at h
      rw [map_find?, if_neg hq]
      exact ih h

theorem map_find?_append_none {K T : Type} (ko : KeyOps K) (k : K)
    {m : List (K × T)} (m₂ : List (K × T)) (h : map_find? ko k m = none) :
    map_find? ko k (m ++ m₂) = map_find? ko k m₂ := by
  induction m with
  | nil => simp
  | cons q rest ih =>
    rw [List.cons_append]
    by_cases hq : entry_matches ko k q = true
    · rw [map_find?, if_pos hq] at h
      exact absurd h (by simp)
    · rw [map_find?, if_neg hq] at h
      rw [map_find?, if_neg hq]
      exact ih h

theorem map_find?_singleton {K T : Type} (ko : KeyOps K) (q k' : K)
    (v : T) :
    map_find? ko q [(k', v)] =
      if entry_matches ko q (k', v) then some (k', v) else none := by
  rw [map_find?]
  cases entry_matches ko q (k', v) <;> simp [map_find?]

theorem contains_key_eq_false_iff {K T : Type} (ko : KeyOps K)
    (m : List (K × T)) (k : K) :
    contains_key ko m k = false ↔ map_find? ko k m = none := by
  cases h : map_find? ko k m <;> simp [contains_key, h]

/-- The lookup of a cloned key finds nothing when the original key's
lookup finds nothing. -/
theorem contains_key_clone {K T : Type} {ko : KeyOps K} (hlaw : ko.Lawful)
    (m : List (K × T)) (k : K) :
    contains_key ko m (ko.clone k) = contains_key ko m k := by
  have : map_find? ko (ko.clone k) m = map_find? ko k m := by
    induction m with
    | nil => rfl
    | cons p rest ih =>
      simp only [map_find?, entry_matches_clone_query hlaw, ih]
  simp [contains_key, this]

/-- A value-replacing rewrite of the entries (what `HashMap::insert` does
on a hit) changes no stored key, so it is invisible to `map_find?` when
the lookup misses. -/
theorem map_find?_map_none {K T : Type} (ko : KeyOps K) (k : K)
    {m : List (K × T)} (f : K × T → K × T)
    (hf : ∀ p, entry_matches ko k (f p) = entry_matches ko k p)
    (h : map_find? ko k m = none) : map_find? ko k (m.map f) = none := by
  induction m with
  | nil => rfl
  | cons q rest ih =>
    by_cases hq : entry_matches ko k q = true
    · rw [map_find?, if_pos hq] at h
      exact absurd h (by simp)
    · rw [map_find?, if_neg hq] at h
      rw [List.map_cons, map_find?, if_neg (by rw [hf q]; exact hq)]
      exact ih h

/-- `try_insert` on a key already present: no mutation, absence signal. -/
theorem try_insert_present {K T : Type} (ko : KeyOps K) (st : StaticType T)
    (dbg : Bool) (o : HashMapOwner K T) (k : K) (v : T)
    (hc : contains_key ko o.entries k = true) :
    HashMapOwner.try_insert ko st dbg o k v = .ok (o, none) := by
  simp [HashMapOwner.try_insert, hc]

/-- `try_insert` on an absent key, release build: append `(k, v)` and
return the pointer recorded before the insertion. -/
theorem try_insert_absent_release {K T : Type} (ko : KeyOps K)
    (st : StaticType T) (o : HashMapOwner K T) (k : K) (v : T)
    (hc : contains_key ko o.entries k = false) :
    HashMapOwner.try_insert ko st false o k v =
      .ok (⟨o.entries ++ [(k, v)]⟩, some (st.ref_ptr v)) := by
  simp [HashMapOwner.try_insert, hc, map_insert]

/-- `try_insert` on an absent key, checked build with well-behaved keys:
append `(clone k, v)`; the re-lookup finds the fresh entry, the assertion
holds, and the same pointer is returned. -/
theorem try_insert_absent_debug {K T : Type} {ko : KeyOps K}
    (st : StaticType T) (o : HashMapOwner K T) (k : K) (v : T)
    (hlaw : ko.Lawful) (hc : contains_key ko o.entries k = false) :
    HashMapOwner.try_insert ko st true o k v =
      .ok (⟨o.entries ++ [(ko.clone k, v)]⟩, some (st.ref_ptr v)) := by
  have hcc : contains_key ko o.entries (ko.clone k) = false := by
    rw [contains_key_clone hlaw]
    exact hc
  have hmi : map_insert ko o.entries (ko.clone k) v =
      o.entries ++ [(ko.clone k, v)] := by
    simp [map_insert, hcc]
  have hfind : map_find? ko k (o.entries ++ [(ko.clone k, v)]) =
      some (ko.clone k, v) := by
    rw [map_find?_append_none ko k _
      ((contains_key_eq_false_iff ko o.entries k).mp hc)]
    have hm : entry_matches ko k (ko.clone k, v) = true := by
      simp [entry_matches, hlaw.hash_clone, hlaw.clone_beq]
    rw [map_find?, if_pos hm]
  simp [HashMapOwner.try_insert, hc, hmi, map_get, hfind]

/-- Inversion: every successful `try_insert` either signalled absence
(key present, owner untouched) or appended exactly one entry holding `v`
(under the original key or its clone) and returned `v`'s pointer. Holds
for both build modes and without any lawfulness assumption on keys. -/
theorem try_insert_ok_inv {K T : Type} {ko : KeyOps K} {st : StaticType T}
    {dbg : Bool} {o o' : HashMapOwner K T} {k : K} {v : T}
    {r : Option Addr}
    (h : HashMapOwner.try_insert ko st dbg o k v = .ok (o', r)) :
    (r = none ∧ o' = o ∧ contains_key ko o.entries k = true) ∨
    (r = some (st.ref_ptr v) ∧ contains_key ko o.entries k = false ∧
      ∃ k', o'.entries = o.entries ++ [(k', v)]) := by
  cases hc : contains_key ko o.entries k with
  | true =>
    rw [try_insert_present ko st dbg o k v hc] at h
    left
    cases h
    exact ⟨rfl, rfl, rfl⟩
  | false =>
    right
    cases dbg with
    | false =>
      rw [try_insert_absent_release ko st o k v hc] at h
      cases h
      exact ⟨rfl, rfl, k, rfl⟩
    | true =>
      rw [HashMapOwner.try_insert] at h
      rw [hc] at h
      simp only [Bool.false_eq_true, if_false, if_true] at h
      cases hcc : contains_key ko o.entries (ko.clone k) with
      | true =>
        have hrep : map_get ko
            (map_insert ko o.entries (ko.clone k) v) k = none := by
          rw [map_insert, if_pos hcc, map_get, map_find?_map_none ko k _
            (fun p => by
              by_cases hp : entry_matches ko (ko.clone k) p = true
              · rw [if_pos hp]
                rfl
              · rw [if_neg hp])
            ((contains_key_eq_false_iff ko o.entries k).mp hc)]
          rfl
        rw [hrep] at h
        cases h
      | false =>
        have hmi : map_insert ko o.entries (ko.clone k) v =
            o.entries ++ [(ko.clone k, v)] := by
          simp [map_insert, hcc]
        rw [hmi] at h
        have hnone := (contains_key_eq_false_iff ko o.entries k).mp hc
        cases hm : entry_matches ko k (ko.clone k, v) with
        | false =>
          have : map_get ko (o.entries ++ [(ko.clone k, v)]) k = none := by
            rw [map_get, map_find?_append_none ko k _ hnone, map_find?,
              if_neg (by simp [hm])]
            rfl
          rw [this] at h
          cases h
        | true =>
          have : map_get ko (o.entries ++ [(ko.clone k, v)]) k = some v := by
            rw [map_get, map_find?_append_none ko k _ hnone, map_find?,
              if_pos hm]
            rfl
          rw [this] at h
          simp only [if_pos rfl] at h
          cases h
          exact ⟨rfl, rfl, ko.clone k, rfl⟩

/-- The client scenario of the sequential store's doc examples: for each
value in turn, `Box::new` it and `VecChild::push` the box, collecting the
returned references (addresses). -/
def pushSeq {V : Type} (dbg : Bool) (h : Heap V) (o : VecOwner (Boxed V)) :
    List V → Except String (Heap V × VecOwner (Boxed V) × List Addr)
  | [] => .ok (h, o, [])
  | x :: rest =>
    match VecChild.push (Boxed.staticType V) dbg o (h.alloc x).2 with
    | .error e => .error e
    | .ok (o', a) =>
      match pushSeq dbg (h.alloc x).1 o' rest with
      | .error e => .error e
      | .ok (h', o'', rest_addrs) => .ok (h', o'', a :: rest_addrs)

/-- `n` consecutive addresses starting at `start`: the payload cells of
`n` consecutive allocations. -/
def addrsFrom (start : Nat) : Nat → List Addr
  | 0 => []
  | n + 1 => start :: addrsFrom (start + 1) n

theorem addrsFrom_getD (n : Nat) : ∀ (start i : Nat), i < n →
    (addrsFrom start n).getD i 0 = start + i := by
  induction n with
  | zero => exact fun start i hi => absurd hi (Nat.not_lt_zero i)
  | succ m ih =>
    intro start i hi
    cases i with
    | zero => simp [addrsFrom]
    | succ j =>
      rw [addrsFrom, List.getD_cons_succ,
        ih (start + 1) j (Nat.lt_of_succ_lt_succ hi),
        Nat.add_assoc, Nat.add_comm 1 j]

/-- One client-visible operation on the stores: pushing a freshly boxed
value, inserting a freshly boxed value under a key (either duplicate
policy), or dropping the current insertion handles and obtaining new ones
from the owners (`child()`), which touches no storage. -/
inductive StoreOp (K V : Type) where
  | vecPush (x : V)
  | mapTryInsert (k : K) (x : V)
  | mapInsert (k : K) (x : V)
  | renewHandles

/-- The whole program state: the heap of boxed payloads plus one owner of
each store (both storing boxes). -/
structure SysState (K V : Type) where
  heap : Heap V
  vec : VecOwner (Boxed V)
  map : HashMapOwner K (Boxed V)
deriving DecidableEq

/-- Execute one operation: box the payload, then run the corresponding
store method through the active insertion handle. Panics propagate as
errors; the returned `Option Addr` is the reference handed back to the
client, when there is one. -/
def stepOp {K V : Type} (ko : KeyOps K) (dbg : Bool) (s : SysState K V) :
    StoreOp K V → Except String (SysState K V × Option Addr)
  | .vecPush x =>
    match VecChild.push (Boxed.staticType V) dbg s.vec (s.heap.alloc x).2 with
    | .error e => .error e
    | .ok (o', a) => .ok (⟨(s.heap.alloc x).1, o', s.map⟩, some a)
  | .mapTryInsert k x =>
    match HashMapChild.try_insert ko (Boxed.staticType V) dbg s.map k
        (s.heap.alloc x).2 with
    | .error e => .error e
    | .ok (m', r) => .ok (⟨(s.heap.alloc x).1, s.vec, m'⟩, r)
  | .mapInsert k x =>
    match HashMapChild.insert ko (Boxed.staticType V) dbg s.map k
        (s.heap.alloc x).2 with
    | .error e => .error e
    | .ok (m', a) => .ok (⟨(s.heap.alloc x).1, s.vec, m'⟩, some a)
  | .renewHandles => .ok (s, none)

/-- Execute a sequence of operations, stopping at the first panic. -/
def runOps {K V : Type} (ko : KeyOps K) (dbg : Bool) (s : SysState K V) :
    List (StoreOp K V) → Except String (SysState K V)
  | [] => .ok s
  | op :: rest =>
    match stepOp ko dbg s op with
    | .error e => .error e
    | .ok (s', _) => runOps ko dbg s' rest

/-- Every operation that completes only appends heap cells: the payload
of every box allocated earlier stays where it was. -/
theorem stepOp_heap_extends {K V : Type} {ko : KeyOps K} {dbg : Bool}
    {s s' : SysState K V} {op : StoreOp K V} {r : Option Addr}
    (h : stepOp ko dbg s op = .ok (s', r)) :
    ∃ ext, s'.heap.cells = s.heap.cells ++ ext := by
  cases op with
  | vecPush x =>
    rw [stepOp, VecChild.push, VecOwner.push_eq] at h
    cases h
    exact ⟨[x], rfl⟩
  | mapTryInsert k x =>
    rw [stepOp, HashMapChild.try_insert] at h
    cases hti : HashMapOwner.try_insert ko (Boxed.staticType V) dbg s.map k
        (s.heap.alloc x).2 with
    | error e => rw [hti] at h; cases h
    | ok p =>
      rw [hti] at h
      cases h
      exact ⟨[x], rfl⟩
  | mapInsert k x =>
    rw [stepOp] at h
    cases hins : HashMapChild.insert ko (Boxed.staticType V) dbg s.map k
        (s.heap.alloc x).2 with
    | error e => rw [hins] at h; cases h
    | ok p =>
      rw [hins] at h
      cases h
      exact ⟨[x], rfl⟩
  | renewHandles =>
    rw [stepOp] at h
    cases h
    exact ⟨[], by simp⟩

/-- Derefs survive heap extension. -/
theorem deref_append {V : Type} {cells ext : List V} {a : Addr} {x : V}
    (h : cells.get? a = some x) : (cells ++ ext).get? a = some x := by
  rw [List.get?_append (List.get?_eq_some.mp h).1]
  exact h

/-- A reference valid before an operation is valid, with the same
payload, after it. -/
theorem stepOp_deref_preserved {K V : Type} {ko : KeyOps K} {dbg : Bool}
    {s s' : SysState K V} {op : StoreOp K V} {r : Option Addr}
    {a : Addr} {x : V} (hstep : stepOp ko dbg s op = .ok (s', r))
    (h : s.heap.deref a = some x) : s'.heap.deref a = some x := by
  obtain ⟨ext, hext⟩ := stepOp_heap_extends hstep
  rw [Heap.deref, hext]
  exact deref_append h

/-- A reference valid before a run of operations is valid, with the same
payload, after the whole run. -/
theorem runOps_deref_preserved {K V : Type} {ko : KeyOps K} {dbg : Bool}
    {s s' : SysState K V} {ops : List (StoreOp K V)} {a : Addr} {x : V}
    (hrun : runOps ko dbg s ops = .ok s')
    (h : s.heap.deref a = some x) : s'.heap.deref a = some x := by
  induction ops generalizing s with
  | nil =>
    rw [runOps] at hrun
    cases hrun
    exact h
  | cons op rest ih =>
    rw [runOps] at hrun
    cases hstep : stepOp ko dbg s op with
    | error e => rw [hstep] at hrun; cases hrun
    | ok p =>
      rw [hstep] at hrun
      exact ih hrun (stepOp_deref_preserved hstep h)

theorem map_get_append_some {K T : Type} (ko : KeyOps K) (q : K)
    {m m₂ : List (K × T)} {bv : T} (h : map_get ko m q = some bv) :
    map_get ko (m ++ m₂) q = some bv := by
  rw [map_get] at h
  obtain ⟨p, hp, hsnd⟩ := Option.map_eq_some'.mp h
  rw [map_get, map_find?_append_some ko q hp]
  simp [hsnd]

/-- Inversion of `HashMapChild::insert`: a non-panicking call means the
underlying `try_insert` returned a reference. -/
theorem child_insert_ok_inv {K T : Type} {ko : KeyOps K} {st : StaticType T}
    {dbg : Bool} {o o' : HashMapOwner K T} {k : K} {v : T} {a : Addr}
    (h : HashMapChild.insert ko st dbg o k v = .ok (o', a)) :
    HashMapOwner.try_insert ko st dbg o k v = .ok (o', some a) := by
  rw [HashMapChild.insert] at h
  cases hti : HashMapOwner.try_insert ko st dbg o k v with
  | error e => rw [hti] at h; cases h
  | ok p =>
    rw [hti] at h
    obtain ⟨o2, r⟩ := p
    cases r with
    | none => cases h
    | some a2 => cases h; rfl

/-- What an operation appends to the sequential store: exactly the newly
boxed value on a push, and nothing at all on map operations or handle
renewals. -/
def vecDelta {K V : Type} (s : SysState K V) : StoreOp K V → List (Boxed V)
  | .vecPush x => [(s.heap.alloc x).2]
  | .mapTryInsert _ _ => []
  | .mapInsert _ _ => []
  | .renewHandles => []

/-- Content preservation of a single completed operation: the sequence
afterwards is exactly the old sequence with the new box (if any)
appended, the map never loses entries, and an established key binding
never changes. -/
theorem stepOp_preserves_content {K V : Type} {ko : KeyOps K} {dbg : Bool}
    {s s' : SysState K V} {op : StoreOp K V} {r : Option Addr}
    (h : stepOp ko dbg s op = .ok (s', r)) :
    s'.vec.data = s.vec.data ++ vecDelta s op ∧
    s.map.count ≤ s'.map.count ∧
    (∀ q bv, map_get ko s.map.entries q = some bv →
      map_get ko s'.map.entries q = some bv) := by
  cases op with
  | vecPush x =>
    rw [stepOp, VecChild.push, VecOwner.push_eq] at h
    cases h
    exact ⟨rfl, Nat.le_refl _, fun q bv hq => hq⟩
  | mapTryInsert k x =>
    rw [stepOp, HashMapChild.try_insert] at h
    cases hti : HashMapOwner.try_insert ko (Boxed.staticType V) dbg s.map k
        (s.heap.alloc x).2 with
    | error e => rw [hti] at h; cases h
    | ok p =>
      rw [hti] at h
      cases h
      refine ⟨by simp [vecDelta], ?_, ?_⟩
      · rcases try_insert_ok_inv hti with ⟨_, ho, _⟩ | ⟨_, _, k', hk'⟩
        · rw [ho]
        · rw [HashMapOwner.count, HashMapOwner.count, hk']
          simp
      · intro q bv hq
        rcases try_insert_ok_inv hti with ⟨_, ho, _⟩ | ⟨_, _, k', hk'⟩
        · rw [ho]; exact hq
        · rw [hk']
          exact map_get_append_some ko q hq
  | mapInsert k x =>
    rw [stepOp] at h
    cases hins : HashMapChild.insert ko (Boxed.staticType V) dbg s.map k
        (s.heap.alloc x).2 with
    | error e => rw [hins] at h; cases h
    | ok p =>
      rw [hins] at h
      cases h
      obtain ⟨m', a⟩ := p
      have hti := child_insert_ok_inv hins
      refine ⟨by simp [vecDelta], ?_, ?_⟩
      · rcases try_insert_ok_inv hti with ⟨hn, _, _⟩ | ⟨_, _, k', hk'⟩
        · cases hn
        · rw [HashMapOwner.count, HashMapOwner.count, hk']
          simp
      · intro q bv hq
        rcases try_insert_ok_inv hti with ⟨hn, _, _⟩ | ⟨_, _, k', hk'⟩
        · cases hn
        · rw [hk']
          exact map_get_append_some ko q hq
  | renewHandles =>
    rw [stepOp] at h
    cases h
    exact ⟨by simp [vecDelta], Nat.le_refl _, fun q bv hq => hq⟩

/-- Closed form of `pushSeq`: it always succeeds, the heap gains the
payloads in order, the owner gains the boxes in order, and the returned
references are the consecutive fresh addresses. -/
theorem pushSeq_eq {V : Type} (dbg : Bool) (h : Heap V)
    (o : VecOwner (Boxed V)) (vs : List V) :
    pushSeq dbg h o vs = .ok (⟨h.cells ++ vs⟩,
      ⟨o.data ++ (addrsFrom h.cells.length vs.length).map Boxed.mk⟩,
      addrsFrom h.cells.length vs.length) := by
  induction vs generalizing h o with
  | nil => simp [pushSeq, addrsFrom]
  | cons x rest ih =>
    have halloc1 : (h.alloc x).1 = ⟨h.cells ++ [x]⟩ := rfl
    have halloc2 : (h.alloc x).2 = Boxed.mk h.cells.length := rfl
    rw [pushSeq, VecChild.push, halloc1, halloc2, VecOwner.push_eq]
    simp only [ih]
    simp [addrsFrom, Boxed.staticType]

/-! ## Concrete key operations used to exercise the theorems -/

/-- `Nat` keys with the standard equality, the identity hash, and the
identity clone (a well-behaved `Hash + Eq + Clone` triple). -/
def natKeyOps : KeyOps Nat :=
  ⟨fun a b => a == b, fun k => k, fun k => k⟩

theorem natKeyOps_lawful : natKeyOps.Lawful := by
  constructor
  · intro a b h
    simp only [natKeyOps, beq_iff_eq] at h ⊢
    exact h.symm
  · intro a b c h1 h2
    simp only [natKeyOps, beq_iff_eq] at h1 h2 ⊢
    exact h1.trans h2
  · intro k
    simp [natKeyOps]
  · intro k
    rfl

/-! ## The claims -/

/-- C1: for every sequence of `N` pushes into a fresh sequential store,
the reference returned by the `i`-th push dereferences, in the heap as it
stands after all later pushes (including the ones that grew the backing
storage), to the `i`-th pushed value, unchanged. -/
theorem pushed_references_stay_correct {V : Type} (dbg : Bool)
    (vs : List V) (hp : Heap V) (o : VecOwner (Boxed V)) (rs : List Addr)
    (hrun : pushSeq dbg (Heap.empty V) (VecOwner.empty (Boxed V)) vs =
      .ok (hp, o, rs))
    (i : Nat) (hi : i < vs.length) :
    hp.deref (rs.getD i 0) = vs.get? i := by
  rw [pushSeq_eq] at hrun
  cases hrun
  have h0 : (Heap.empty V).cells = ([] : List V) := rfl
  rw [Heap.deref]
  rw [h0]
  rw [List.nil_append, List.length_nil, addrsFrom_getD vs.length 0 i hi,
    Nat.zero_add]

/-- C1 witness: pushing `10` then `20` into a fresh store yields
references dereferencing to `10` and `20`, in that order. -/
theorem pushed_references_stay_correct_witness :
    (⟨[10, 20]⟩ : Heap Nat).deref (([0, 1] : List Addr).getD 0 0) =
        some 10 ∧
      (⟨[10, 20]⟩ : Heap Nat).deref (([0, 1] : List Addr).getD 1 0) =
        some 20 :=
  ⟨pushed_references_stay_correct true [10, 20] ⟨[10, 20]⟩
      ⟨[⟨0⟩, ⟨1⟩]⟩ [0, 1] rfl 0 (by decide),
    pushed_references_stay_correct true [10, 20] ⟨[10, 20]⟩
      ⟨[⟨0⟩, ⟨1⟩]⟩ [0, 1] rfl 1 (by decide)⟩

/-- C2: a reference that dereferences to `x` keeps dereferencing to `x`
for the rest of the owner's lifetime: across any later sequence of
completed operations (pushes, inserts through fresh handles, handle drops
and renewals), its payload is untouched. -/
theorem reference_valid_for_owner_lifetime {K V : Type} (ko : KeyOps K)
    (dbg : Bool) (s s' : SysState K V) (ops : List (StoreOp K V))
    (a : Addr) (x : V) (hvalid : s.heap.deref a = some x)
    (hrun : runOps ko dbg s ops = .ok s') :
    s'.heap.deref a = some x :=
  runOps_deref_preserved hrun hvalid

/-- C2 witness: a reference to a stored `5` still reads `5` after a
handle renewal, a push, two fresh-key inserts and a duplicate-key
`try_insert`. -/
theorem reference_valid_for_owner_lifetime_witness :
    (⟨[5, 7, 9, 11, 13]⟩ : Heap Nat).deref 0 = some 5 :=
  reference_valid_for_owner_lifetime natKeyOps true
    ⟨⟨[5]⟩, ⟨[⟨0⟩]⟩, ⟨[]⟩⟩
    ⟨⟨[5, 7, 9, 11, 13]⟩, ⟨[⟨0⟩, ⟨1⟩]⟩, ⟨[(3, ⟨2⟩), (4, ⟨3⟩)]⟩⟩
    [.renewHandles, .vecPush 7, .mapTryInsert 3 9, .mapInsert 4 11,
      .mapTryInsert 3 13]
    0 5 rfl rfl

/-- C3: `try_insert` on an absent key (with a freshly boxed value) always
succeeds — it returns a reference rather than the absence signal — the
element count grows by exactly one, and the returned reference
dereferences to the inserted value. -/
theorem try_insert_absent_succeeds {K V : Type} (ko : KeyOps K)
    (hlaw : ko.Lawful) (dbg : Bool) (h : Heap V)
    (o : HashMapOwner K (Boxed V)) (k : K) (x : V)
    (habs : contains_key ko o.entries k = false) :
    ∃ o', HashMapChild.try_insert ko (Boxed.staticType V) dbg o k
        (h.alloc x).2 = .ok (o', some ((h.alloc x).2).addr) ∧
      (h.alloc x).1.deref ((h.alloc x).2).addr = some x ∧
      o'.count = o.count + 1 := by
  have hderef : (h.alloc x).1.deref ((h.alloc x).2).addr = some x := by
    rw [Heap.alloc, Heap.deref]
    exact List.get?_concat_length h.cells x
  cases dbg with
  | false =>
    refine ⟨⟨o.entries ++ [(k, (h.alloc x).2)]⟩, ?_, hderef, ?_⟩
    · rw [HashMapChild.try_insert,
        try_insert_absent_release ko (Boxed.staticType V) o k _ habs]
      rfl
    · simp [HashMapOwner.count]
  | true =>
    refine ⟨⟨o.entries ++ [(ko.clone k, (h.alloc x).2)]⟩, ?_, hderef, ?_⟩
    · rw [HashMapChild.try_insert,
        try_insert_absent_debug (Boxed.staticType V) o k _ hlaw habs]
      rfl
    · simp [HashMapOwner.count]

/-- C3 witness: inserting `42` under the absent key `1` into the empty
store succeeds, count goes from 0 to 1, and the reference reads `42`. -/
theorem try_insert_absent_succeeds_witness :
    ∃ o', HashMapChild.try_insert natKeyOps (Boxed.staticType Nat) true
        (HashMapOwner.empty Nat (Boxed Nat)) 1
        ((Heap.empty Nat).alloc 42).2 =
        .ok (o', some (((Heap.empty Nat).alloc 42).2).addr) ∧
      ((Heap.empty Nat).alloc 42).1.deref
        (((Heap.empty Nat).alloc 42).2).addr = some 42 ∧
      o'.count = (HashMapOwner.empty Nat (Boxed Nat)).count + 1 :=
  try_insert_absent_succeeds natKeyOps natKeyOps_lawful true
    (Heap.empty Nat) (HashMapOwner.empty Nat (Boxed Nat)) 1 42 rfl

/-- C4: `try_insert` on a key already present mutates nothing — the owner
comes back untouched (same entries, same count, so every previously
returned reference observes the same stored value), the supplied value is
dropped, and the call signals absence. -/
theorem try_insert_present_no_mutation {K T : Type} (ko : KeyOps K)
    (st : StaticType T) (dbg : Bool) (o : HashMapOwner K T) (k : K)
    (v : T) (hc : contains_key ko o.entries k = true) :
    HashMapOwner.try_insert ko st dbg o k v = .ok (o, none) :=
  try_insert_present ko st dbg o k v hc

/-- C4 witness: re-inserting under the occupied key `1` returns the store
unchanged together with the absence signal. -/
theorem try_insert_present_no_mutation_witness :
    HashMapOwner.try_insert natKeyOps (Boxed.staticType Nat) true
        ⟨[(1, ⟨0⟩)]⟩ 1 ⟨9⟩ = .ok (⟨[(1, ⟨0⟩)]⟩, none) :=
  try_insert_present_no_mutation natKeyOps (Boxed.staticType Nat) true
    ⟨[(1, ⟨0⟩)]⟩ 1 ⟨9⟩ rfl

/-- C5: `insert` on a key already present always takes the fatal path: it
panics (`expect("Key already exists")`) instead of returning a reference,
never overwrites the stored value, and at the moment of the panic the
underlying `try_insert` has left the store untouched. -/
theorem insert_present_panics {K T : Type} (ko : KeyOps K)
    (st : StaticType T) (dbg : Bool) (o : HashMapOwner K T) (k : K)
    (v : T) (hc : contains_key ko o.entries k = true) :
    HashMapChild.insert ko st dbg o k v = .error "Key already exists" ∧
    HashMapOwner.try_insert ko st dbg o k v = .ok (o, none) := by
  have h1 := try_insert_present ko st dbg o k v hc
  exact ⟨by simp [HashMapChild.insert, h1], h1⟩

/-- C5 witness: a second `insert` under key `1` panics and the entry
keeps its original value. -/
theorem insert_present_panics_witness :
    HashMapChild.insert natKeyOps (Boxed.staticType Nat) true
        ⟨[(1, ⟨0⟩)]⟩ 1 ⟨9⟩ = .error "Key already exists" ∧
      HashMapOwner.try_insert natKeyOps (Boxed.staticType Nat) true
        ⟨[(1, ⟨0⟩)]⟩ 1 ⟨9⟩ = .ok (⟨[(1, ⟨0⟩)]⟩, none) :=
  insert_present_panics natKeyOps (Boxed.staticType Nat) true
    ⟨[(1, ⟨0⟩)]⟩ 1 ⟨9⟩ rfl

/-- C6: checked builds recompute the stored element's address right after
every insertion (`push` re-reads the last element; `try_insert` re-derives
it through `get` on the freshly inserted key) and assert it equals the
address taken before; with the `Box` implementer (whose payload address
is unchanged by moving the box) and well-behaved keys the assertion never
fires: both operations complete without panicking. -/
theorem debug_assertions_never_fire {K V : Type} (ko : KeyOps K)
    (hlaw : ko.Lawful) (vo : VecOwner (Boxed V)) (b : Boxed V)
    (mo : HashMapOwner K (Boxed V)) (k : K) (c : Boxed V) :
    (VecOwner.push (Boxed.staticType V) true vo b).isOk = true ∧
    (HashMapOwner.try_insert ko (Boxed.staticType V) true mo k c).isOk
      = true := by
  constructor
  · rw [VecOwner.push_eq]
    rfl
  · cases hc : contains_key ko mo.entries k with
    | true =>
      rw [try_insert_present ko (Boxed.staticType V) true mo k c hc]
      rfl
    | false =>
      rw [try_insert_absent_debug (Boxed.staticType V) mo k c hlaw hc]
      rfl

/-- C6 witness: a checked-build push and a checked-build `try_insert` of
boxed values both complete. -/
theorem debug_assertions_never_fire_witness :
    (VecOwner.push (Boxed.staticType Nat) true ⟨[⟨0⟩]⟩ ⟨1⟩).isOk = true ∧
    (HashMapOwner.try_insert natKeyOps (Boxed.staticType Nat) true
      ⟨[(1, ⟨0⟩)]⟩ 2 ⟨1⟩).isOk = true :=
  debug_assertions_never_fire natKeyOps natKeyOps_lawful
    ⟨[⟨0⟩]⟩ ⟨1⟩ ⟨[(1, ⟨0⟩)]⟩ 2 ⟨1⟩

/-- C7: on a key not already present, `insert` and `try_insert` have the
same success path: `insert` returns exactly the final owner state and
reference that `try_insert` returns wrapped in the presence signal. -/
theorem insert_success_path_equals_try_insert {K T : Type} (ko : KeyOps K)
    (st : StaticType T) (dbg : Bool) (o : HashMapOwner K T) (k : K)
    (v : T) (habs : contains_key ko o.entries k = false) :
    ∀ o' a, HashMapChild.insert ko st dbg o k v = .ok (o', a) ↔
      HashMapChild.try_insert ko st dbg o k v = .ok (o', some a) := by
  intro o' a
  constructor
  · intro h
    rw [HashMapChild.try_insert]
    exact child_insert_ok_inv h
  · intro h
    rw [HashMapChild.try_insert] at h
    simp [HashMapChild.insert, h]

/-- C7 witness: inserting under the absent key `1` through `insert`
produces exactly the state and reference `try_insert` produces. -/
theorem insert_success_path_equals_try_insert_witness :
    HashMapChild.insert natKeyOps (Boxed.staticType Nat) false
        (HashMapOwner.empty Nat (Boxed Nat)) 1 ⟨7⟩ =
      .ok (⟨[(1, ⟨7⟩)]⟩, 7) :=
  (insert_success_path_equals_try_insert natKeyOps (Boxed.staticType Nat)
    false (HashMapOwner.empty Nat (Boxed Nat)) 1 ⟨7⟩ rfl
    ⟨[(1, ⟨7⟩)]⟩ 7).mpr rfl

/-- C8: the sequential store's `push` has no failure path: for every
element type, every implementer, both build modes, every store state and
every value it returns a reference — and the `last()` lookup used by the
debug check cannot fail, because the sequence is nonempty right after the
append. -/
theorem push_never_fails {T : Type} (st : StaticType T) (dbg : Bool)
    (o : VecOwner T) (v : T) :
    VecChild.push st dbg o v = .ok (⟨o.data ++ [v]⟩, st.ref_ptr v) ∧
    (o.data ++ [v]).getLast? = some v := by
  constructor
  · rw [VecChild.push]
    exact VecOwner.push_eq st dbg o v
  · exact getLast?_append_singleton o.data v

/-- C9: a completed operation never removes or modifies existing content:
the sequence afterwards is exactly the previously pushed boxes in push
order with the new box (if any) appended — and nothing is appended by map
operations or handle renewals — the map's count never decreases, and a
key that mapped to a value still maps to that value. -/
theorem operations_preserve_existing_content {K V : Type} (ko : KeyOps K)
    (dbg : Bool) (s s' : SysState K V) (op : StoreOp K V)
    (r : Option Addr) (h : stepOp ko dbg s op = .ok (s', r)) :
    s'.vec.data = s.vec.data ++ vecDelta s op ∧
    s.map.count ≤ s'.map.count ∧
    (∀ q bv, map_get ko s.map.entries q = some bv →
      map_get ko s'.map.entries q = some bv) :=
  stepOp_preserves_content h

/-- C9 witness: one concrete duplicate-key `try_insert` step leaves the
vector exactly unchanged (it appends `vecDelta = []`), keeps the count,
and keeps the existing binding of key `1`. -/
theorem operations_preserve_existing_content_witness :
    ([⟨0⟩] : List (Boxed Nat)) = [⟨0⟩] ++
      vecDelta (⟨⟨[5]⟩, ⟨[⟨0⟩]⟩, ⟨[(1, ⟨0⟩)]⟩⟩ : SysState Nat Nat)
        (StoreOp.mapTryInsert 1 9) ∧
    (⟨[(1, ⟨0⟩)]⟩ : HashMapOwner Nat (Boxed Nat)).count ≤
      (⟨[(1, ⟨0⟩)]⟩ : HashMapOwner Nat (Boxed Nat)).count ∧
    (∀ q bv, map_get natKeyOps
        (⟨[(1, ⟨0⟩)]⟩ : HashMapOwner Nat (Boxed Nat)).entries q = some bv →
      map_get natKeyOps
        (⟨[(1, ⟨0⟩)]⟩ : HashMapOwner Nat (Boxed Nat)).entries q = some bv) :=
  operations_preserve_existing_content natKeyOps true
    ⟨⟨[5]⟩, ⟨[⟨0⟩]⟩, ⟨[(1, ⟨0⟩)]⟩⟩ ⟨⟨[5, 9]⟩, ⟨[⟨0⟩]⟩, ⟨[(1, ⟨0⟩)]⟩⟩
    (StoreOp.mapTryInsert 1 9) none rfl

/-- C10: with well-behaved key `Clone`/`Eq`/`Hash`, the checked-build and
release-build branches of `try_insert` are observationally equivalent:
they return the same value and the final maps have the same count and
answer every lookup identically. -/
theorem debug_release_builds_equivalent {K T : Type} (ko : KeyOps K)
    (hlaw : ko.Lawful) (st : StaticType T) (o : HashMapOwner K T) (k : K)
    (v : T) :
    ∃ o₁ o₂ r, HashMapOwner.try_insert ko st true o k v = .ok (o₁, r) ∧
      HashMapOwner.try_insert ko st false o k v = .ok (o₂, r) ∧
      o₁.count = o₂.count ∧
      ∀ q, map_get ko o₁.entries q = map_get ko o₂.entries q := by
  cases hc : contains_key ko o.entries k with
  | true =>
    exact ⟨o, o, none, try_insert_present ko st true o k v hc,
      try_insert_present ko st false o k v hc, rfl, fun q => rfl⟩
  | false =>
    refine ⟨⟨o.entries ++ [(ko.clone k, v)]⟩, ⟨o.entries ++ [(k, v)]⟩,
      some (st.ref_ptr v), try_insert_absent_debug st o k v hlaw hc,
      try_insert_absent_release ko st o k v hc,
      by simp [HashMapOwner.count], ?_⟩
    intro q
    rw [map_get, map_get]
    cases hf : map_find? ko q o.entries with
    | some p =>
      rw [map_find?_append_some ko q hf, map_find?_append_some ko q hf]
    | none =>
      rw [map_find?_append_none ko q _ hf, map_find?_append_none ko q _ hf,
        map_find?_singleton, map_find?_singleton,
        entry_matches_clone_key hlaw q k v]
      cases entry_matches ko q (k, v) <;> simp

/-- C10 witness: on a concrete store the two build modes agree on the
return value, the count and every lookup. -/
theorem debug_release_builds_equivalent_witness :
    ∃ o₁ o₂ r, HashMapOwner.try_insert natKeyOps (Boxed.staticType Nat)
        true ⟨[(1, ⟨0⟩)]⟩ 2 ⟨5⟩ = .ok (o₁, r) ∧
      HashMapOwner.try_insert natKeyOps (Boxed.staticType Nat)
        false ⟨[(1, ⟨0⟩)]⟩ 2 ⟨5⟩ = .ok (o₂, r) ∧
      o₁.count = o₂.count ∧
      ∀ q, map_get natKeyOps o₁.entries q = map_get natKeyOps o₂.entries q :=
  debug_release_builds_equivalent natKeyOps natKeyOps_lawful
    (Boxed.staticType Nat) ⟨[(1, ⟨0⟩)]⟩ 2 ⟨5⟩
